import Mathlib

/-!
Verification of the t-docker TUI dashboard (package `tui`, the complete
revision of the dashboard file: model, `parseDockerPSOutput`,
`dockerPSToTableRows`, `extractPort`, `model.Update`, `refreshTableData`,
`model.View`).

Strings are modelled as lists of characters (`Str`).  Fallible Go code
(indexing that can panic) is modelled with `Option`: a `none` result of the
embedded function marks a Go runtime panic.  External process invocations are
modelled symbolically: a returned `tea.Cmd` becomes a value of the `Cmd`
inductive, and output printed or processes started synchronously inside a
handler become `Effect` values.
-/

/-! ## Character-level string primitives (Go standard library) -/

abbrev Str := List Char

/-- Character class of Go's `unicode.IsSpace`: the ASCII spaces
`\t \n \v \f \r ' '`, `NEL`, `NBSP`, and the Unicode `White_Space`
code points at or above `0x100`. -/
def goIsSpace (c : Char) : Bool :=
  c = ' ' || c = '\t' || c = '\n' || c = '\x0b' || c = '\x0c' || c = '\r' ||
  c = '\u0085' || c = '\u00A0' || c = '\u1680' ||
  (0x2000 ≤ c.toNat && c.toNat ≤ 0x200A) ||
  c = '\u2028' || c = '\u2029' || c = '\u202F' || c = '\u205F' || c = '\u3000'

/-- Go `strings.TrimSpace`: remove leading and trailing space characters. -/
def trimGo (s : Str) : Str :=
  ((s.dropWhile goIsSpace).reverse.dropWhile goIsSpace).reverse

/-- Go `strings.Split` with a one-character separator: split into the
(possibly empty) runs between occurrences of the separator.  The empty
string yields one empty field, matching Go. -/
def splitOnChar (sep : Char) : Str → List Str
  | [] => [[]]
  | c :: cs =>
    match splitOnChar sep cs with
    | [] => if c = sep then [[], []] else [[c]]
    | h :: t => if c = sep then [] :: h :: t else (c :: h) :: t

/-- Interleave a separator between a list of fields (Go `strings.Join`
with a one-character separator); used to state the spec's serialization
convention for the round-trip property. -/
def joinSep (sep : Char) : List Str → Str
  | [] => []
  | [x] => x
  | x :: y :: xs => x ++ sep :: joinSep sep (y :: xs)

/-- Decidable prefix test on character lists. -/
def leadsWith : Str → Str → Bool
  | [], _ => true
  | _ :: _, [] => false
  | a :: as, b :: bs => a = b && leadsWith as bs

/-- Go `strings.Contains s sub`: `sub` occurs as a contiguous substring
of `s`. -/
def goContains : Str → Str → Bool
  | [], sub => decide (sub = [])
  | c :: rest, sub => leadsWith sub (c :: rest) || goContains rest sub

/-! ## Data model -/

/-- One parsed row of the process listing (Go struct `DockerPS`). -/
structure DockerPS where
  ContainerID : Str
  Image : Str
  Command : Str
  Created : Str
  Status : Str
  Ports : Str
  Names : Str
deriving DecidableEq

/-- A display row (`table.Row` is a string slice); produced from a record
in the field order of `dockerPSToTableRows`. -/
abbrev Row := List Str

/-- The row built from one record by `dockerPSToTableRows`. -/
def DockerPS.toRow (d : DockerPS) : Row :=
  [d.ContainerID, d.Image, d.Command, d.Created, d.Status, d.Ports, d.Names]

/-! ## Row parsing (`parseDockerPSOutput`) -/

/-- Parse one non-blank line: split on tabs and read fields 0..6, trimming
each.  Go indexes `fields[0]` .. `fields[6]` without a length check, so a
line with fewer than seven tab-separated fields makes the Go code panic
with an index-out-of-range error; `none` models that panic.  A line with
more than seven fields is parsed from its first seven. -/
def parseLine (line : Str) : Option DockerPS :=
  match splitOnChar '\t' line with
  | fields =>
    match fields.get? 0, fields.get? 1, fields.get? 2, fields.get? 3,
          fields.get? 4, fields.get? 5, fields.get? 6 with
    | some f0, some f1, some f2, some f3, some f4, some f5, some f6 =>
      some ⟨trimGo f0, trimGo f1, trimGo f2, trimGo f3, trimGo f4,
            trimGo f5, trimGo f6⟩
    | _, _, _, _, _, _, _ => none

/-- Loop body of `parseDockerPSOutput`: blank lines are skipped, every other
line is parsed; a panic on any line aborts the whole call (`none`). -/
def parseLines : List Str → Option (List DockerPS)
  | [] => some []
  | line :: rest =>
    if line = [] then parseLines rest
    else
      match parseLine line, parseLines rest with
      | some r, some rs => some (r :: rs)
      | _, _ => none

/-- `parseDockerPSOutput`: split the raw text on newlines and parse each
non-blank line in order. -/
def parseDockerPSOutput (output : Str) : Option (List DockerPS) :=
  parseLines (splitOnChar '\n' output)

/-- `dockerPSToTableRows`: one table row per record, in order. -/
def dockerPSToTableRows (l : List DockerPS) : List Row :=
  l.map DockerPS.toRow

/-! ## Port extraction (`extractPort`) -/

/-- RE2 character class `\d`. -/
def isDigitCh (c : Char) : Bool := '0' ≤ c && c ≤ '9'

/-- Try to match the regular expression `(\d+)->\d+/tcp` at the very start
of `s` and return the first capture group (the host port).  Because a digit
run must be followed by the literal `-` (first group) or `/` (second group),
neither of which is a digit, RE2's greedy `\d+` matches exactly the maximal
digit run and no backtracking can occur; matching the maximal run is
therefore faithful. -/
def matchPortAt (s : Str) : Option Str :=
  match s.takeWhile isDigitCh, s.dropWhile isDigitCh with
  | [], _ => none
  | d1, '-' :: '>' :: r2 =>
    match r2.takeWhile isDigitCh, r2.dropWhile isDigitCh with
    | [], _ => none
    | _, '/' :: 't' :: 'c' :: 'p' :: _ => some d1
    | _, _ => none
  | _, _ => none

/-- Leftmost match: scan start positions left to right, as Go's
`regexp.FindStringSubmatch` does, and return the first success. -/
def findPort : Str → Option Str
  | [] => none
  | c :: cs =>
    match matchPortAt (c :: cs) with
    | some d => some d
    | none => findPort cs

/-- The error text built by `fmt.Errorf("no port found in %s", portMapping)`. -/
def noPortText (portMapping : Str) : Str :=
  "no port found in ".data ++ portMapping

/-- `extractPort`: first host port of a `(\d+)->\d+/tcp` match, or a
descriptive error. -/
def extractPort (portMapping : Str) : Except Str Str :=
  match findPort portMapping with
  | some p => Except.ok p
  | none => Except.error (noPortText portMapping)

/-! ## View styling (`model.View`) -/

def exitedKW : Str := "Exited".data
def stoppedKW : Str := "Stopped".data

/-- Styling decision of `model.View` for one row: Go reads `row[4]` (the
status cell; a shorter row would panic, modelled by `none`) and renders
every cell with the muted gray style iff the status contains `"Exited"` or
`"Stopped"`.  The lipgloss rendering primitive is an excluded collaborator;
the boolean records which style is applied to the row. -/
def styleRow (row : Row) : Option (Row × Bool) :=
  match row.get? 4 with
  | some st => some (row, goContains st exitedKW || goContains st stoppedKW)
  | none => none

/-- The styled row list computed by the loop in `model.View`. -/
def viewStyledRows : List Row → Option (List (Row × Bool))
  | [] => some []
  | row :: rest =>
    match styleRow row, viewStyledRows rest with
    | some sr, some srs => some (sr :: srs)
    | _, _ => none

/-! ## Dashboard state machine (`model`, `model.Update`) -/

/-- The dashboard model.  `rows` is `m.rows` (kept equal to the table's row
set by the code); `cursor` and `focused` are the state of the embedded
table widget (selected row index and focus flag); `loading` is the loading
flag.  The spinner phase is irrelevant to every claim and omitted. -/
structure Model where
  rows : List Row
  cursor : Nat
  focused : Bool
  loading : Bool
deriving DecidableEq

/-- The keys the `Update` switch distinguishes, plus the navigation keys
handled by the table widget, plus a stand-in for every other key. -/
inductive Key
  | esc | q | ctrlc | e | s | r | d | o | up | down | other
deriving DecidableEq

/-- Messages delivered to `Update`.  `refresh` is `refreshMsg`; because
`refreshTableData` performs the data fetch synchronously inside the
handler, the fetch's result is passed as an oracle argument of the
message. -/
inductive Msg
  | key (k : Key)
  | data (output : Str)
  | err (e : Str)
  | refresh (fetch : Except Str Str)

/-- The `tea.Cmd` returned by `Update`, symbolically.  `stop`, `restart`
and `delete` run the corresponding docker command, print on failure, and
complete with `refreshMsg`.  `execHandoff` calls `syscall.Exec`, which
replaces the dashboard process image on success and yields a nil message
on failure.  `quit` is `tea.Quit`; `none` is a nil command. -/
inductive Cmd
  | none
  | quit
  | stop (id : Str)
  | restart (id : Str)
  | delete (id : Str)
  | execHandoff (id : Str)
deriving DecidableEq

/-- Count of external process invocations performed when the command runs. -/
def Cmd.invocations : Cmd → Nat
  | .none | .quit => 0
  | .stop _ | .restart _ | .delete _ | .execHandoff _ => 1

/-- Whether the command's completion message is `refreshMsg`.  The
`stop`/`restart`/`delete` closures end in `return refreshMsg{}`; the
`execHandoff` closure returns `nil` (and on success never returns at all). -/
def Cmd.yieldsRefresh : Cmd → Bool
  | .stop _ | .restart _ | .delete _ => true
  | _ => false

/-- Whether running the command replaces the dashboard process image
(`syscall.Exec` semantics: on success the current process is overlaid by
the new program and control never returns). -/
def Cmd.replacesProcess : Cmd → Bool
  | .execHandoff _ => true
  | _ => false

/-- Side effects performed synchronously inside a handler: text printed
with `fmt.Print*`, and the browser process started with
`exec.Command("xdg-open", url).Start()`. -/
inductive Effect
  | print (s : Str)
  | browserOpen (url : Str)
deriving DecidableEq

/-- Result of one `Update` step: the next model, the returned command, and
the effects performed during the handler. -/
structure UpdateResult where
  model : Model
  cmd : Cmd
  effects : List Effect
deriving DecidableEq

/-- `m.table.SelectedRow()`: the row under the cursor, or the empty (nil)
row when the cursor is out of range (the widget's contract). -/
def selRow (m : Model) : Row :=
  match m.rows.get? m.cursor with
  | some row => row
  | none => []

/-- Modelled from the spec: the key handling of the external table widget
(its source is not under src/).  Navigation keys move the selection by one
row, bounded, and are a no-op when there are no rows; every other key
leaves the widget unchanged. -/
def tableKeyCursor (m : Model) (k : Key) : Nat :=
  if m.focused then
    match k with
    | .up => m.cursor - 1
    | .down => min (m.cursor + 1) (m.rows.length - 1)
    | _ => m.cursor
  else m.cursor

/-- Modelled from the spec: the external table widget's `SetRows` clamps
the selection to `[0, max 0 (len-1)]` when the row set is replaced (the
widget's source is not under src/; the spec states the clamping
contract). -/
def clampCursor (c : Nat) (len : Nat) : Nat :=
  min c (len - 1)

/-- The pass-through at the bottom of `Update` for key messages that do not
return early: the table widget consumes the key, the spinner ignores it,
and the resulting command is nil. -/
def keyFallthrough (m : Model) (k : Key) : UpdateResult :=
  ⟨{ m with cursor := tableKeyCursor m k }, Cmd.none, []⟩

def cannotExecText : Str := "Cannot execute a stopped container.".data
def loadErrText (e : Str) : Str := "Error loading data: ".data ++ e
def refreshErrText (e : Str) : Str := "Error running docker ps: ".data ++ e
def portErrText (e : Str) : Str := "Error extracting port: ".data ++ e
def urlText (port : Str) : Str := "http://localhost:".data ++ port

/-- The `tea.KeyMsg` arm of the `Update` switch.  Early `return` statements
skip the bottom pass-through; the other arms fall through to it.  `none`
models a Go panic (indexing a selected row that is too short). -/
def handleKey (m : Model) (k : Key) : Option UpdateResult :=
  match k with
  | .esc =>
    some (keyFallthrough { m with focused := !m.focused } .esc)
  | .q => some ⟨m, Cmd.quit, []⟩
  | .ctrlc => some ⟨m, Cmd.quit, []⟩
  | .e =>
    match selRow m with
    | [] => some (keyFallthrough m .e)
    | c0 :: rest =>
      match (c0 :: rest).get? 4 with
      | Option.none => Option.none
      | some st =>
        if goContains st exitedKW || goContains st stoppedKW then
          some ⟨m, Cmd.none, [.print cannotExecText]⟩
        else
          some ⟨m, Cmd.execHandoff (trimGo c0), []⟩
  | .s =>
    match selRow m with
    | [] => some (keyFallthrough m .s)
    | c0 :: _ => some ⟨m, Cmd.stop (trimGo c0), []⟩
  | .r =>
    match selRow m with
    | [] => some (keyFallthrough m .r)
    | c0 :: _ => some ⟨m, Cmd.restart (trimGo c0), []⟩
  | .d =>
    match selRow m with
    | [] => some (keyFallthrough m .d)
    | c0 :: _ => some ⟨m, Cmd.delete (trimGo c0), []⟩
  | .o =>
    match selRow m with
    | [] => some (keyFallthrough m .o)
    | c0 :: rest =>
      match (c0 :: rest).get? 5 with
      | Option.none => Option.none
      | some pm =>
        match extractPort pm with
        | .error e => some ⟨m, Cmd.none, [.print (portErrText e)]⟩
        | .ok port => some ⟨m, Cmd.none, [.browserOpen (urlText port)]⟩
  | k => some (keyFallthrough m k)

/-- The `dockerDataMsg` arm: parse, rebuild the rows, clear the loading
flag, and install the rows in the table (clamping the selection). -/
def handleData (m : Model) (output : Str) : Option UpdateResult :=
  match parseDockerPSOutput output with
  | Option.none => Option.none
  | some list =>
    some ⟨{ m with
              rows := dockerPSToTableRows list,
              cursor := clampCursor m.cursor (dockerPSToTableRows list).length,
              loading := false },
          Cmd.none, []⟩

/-- The `errMsg` arm: clear the loading flag and print the error. -/
def handleErr (m : Model) (e : Str) : Option UpdateResult :=
  some ⟨{ m with loading := false }, Cmd.none, [.print (loadErrText e)]⟩

/-- The `refreshMsg` arm (`refreshTableData`): refetch; on fetch error
print and leave the model untouched, otherwise reparse and install the new
rows.  The loading flag is not touched. -/
def handleRefresh (m : Model) (fetch : Except Str Str) : Option UpdateResult :=
  match fetch with
  | .error e => some ⟨m, Cmd.none, [.print (refreshErrText e)]⟩
  | .ok output =>
    match parseDockerPSOutput output with
    | Option.none => Option.none
    | some list =>
      some ⟨{ m with
                rows := dockerPSToTableRows list,
                cursor := clampCursor m.cursor (dockerPSToTableRows list).length },
            Cmd.none, []⟩

/-- `model.Update`, one event-loop step. -/
def update (m : Model) : Msg → Option UpdateResult
  | .key k => handleKey m k
  | .data output => handleData m output
  | .err e => handleErr m e
  | .refresh fetch => handleRefresh m fetch

/-- `initialModel` plus the table configuration from `main`: empty rows,
focused table, loading. -/
def initialModel : Model := ⟨[], 0, true, true⟩

/-- The messages that complete a refresh cycle (data or error from the
initial load, or a `refreshMsg` round). -/
def Msg.isRefreshCompletion : Msg → Prop
  | .key _ => False
  | .data _ => True
  | .err _ => True
  | .refresh _ => True

/-! ## Concrete sample data for witnesses and counterexamples -/

/-- The spec's scenario record: a running nginx container. -/
def sampleRec : DockerPS :=
  ⟨"abc123".data, "nginx".data, "nginx -g daemon".data, "2024-01-01".data,
   "Up 2 hours".data, "0.0.0.0:8080->80/tcp".data, "web".data⟩

/-- The spec's scenario record in a terminal status. -/
def exitedRec : DockerPS :=
  ⟨"def456".data, "nginx".data, "nginx -g daemon".data, "2024-01-01".data,
   "Exited (1) 5 minutes ago".data, [], "old".data⟩

def sampleModelRunning : Model := ⟨[sampleRec.toRow], 0, true, false⟩

def sampleModelExited : Model := ⟨[exitedRec.toRow], 0, true, false⟩

/-- A ready model with two records and the cursor on the last row. -/
def sampleModelTwo : Model := ⟨[sampleRec.toRow, exitedRec.toRow], 1, true, false⟩

/-! ## Spec-side definitions for the round-trip claim -/

/-- Serialization per the spec's delimiter convention (stated from the
spec's words for the round-trip property): each record becomes one
tab-separated line. -/
def serializeRecord (r : DockerPS) : Str :=
  joinSep '\t' r.toRow

/-- Serialization per the spec's delimiter convention: tab-separated,
newline-terminated lines. -/
def serializeRecords : List DockerPS → Str
  | [] => []
  | r :: rs => serializeRecord r ++ '\n' :: serializeRecords rs

/-- A field obeying the documented delimiter convention: no embedded tab
or newline, and no surrounding whitespace (trimming is the identity). -/
def goodField (f : Str) : Prop :=
  '\t' ∉ f ∧ '\n' ∉ f ∧ trimGo f = f

instance (f : Str) : Decidable (goodField f) := by
  unfold goodField
  infer_instance

/-! ## Further concrete sample data -/

/-- The tail of `exitedRec.toRow`, spelled out for the attach-rejection
witness. -/
def exitedRowTail : Row :=
  ["nginx".data, "nginx -g daemon".data, "2024-01-01".data,
   "Exited (1) 5 minutes ago".data, [], "old".data]

/-- The spec's scenario source text (one well-formed line). -/
def scenarioText : Str :=
  "abc123\tnginx\tnginx -g daemon\t2024-01-01\tUp 2 hours\t0.0.0.0:8080->80/tcp\tweb\n".data

/-- The step result of delivering `scenarioText` as a data message to
`sampleModelTwo` (the record set shrinks from two rows to one, so the
cursor is clamped from 1 to 0). -/
def c5res : UpdateResult :=
  ⟨⟨[sampleRec.toRow], 0, true, false⟩, Cmd.none, []⟩

/-! ## Helper lemmas: splitting and joining -/

theorem splitOnChar_ne_nil (sep : Char) (l : Str) : splitOnChar sep l ≠ [] := by
  induction l with
  | nil => simp [splitOnChar]
  | cons c cs ih =>
    simp only [splitOnChar]
    split
    · split <;> simp
    · split <;> simp

theorem splitOnChar_of_not_mem (sep : Char) (l : Str) (h : sep ∉ l) :
    splitOnChar sep l = [l] := by
  induction l with
  | nil => rfl
  | cons c cs ih =>
    have hc : ¬c = sep := fun hc => h (by simp [hc])
    have hcs : sep ∉ cs := fun hm => h (List.mem_cons_of_mem _ hm)
    simp only [splitOnChar, ih hcs]
    simp [hc]

theorem splitOnChar_append (sep : Char) (l₁ l₂ : Str) (h : sep ∉ l₁) :
    splitOnChar sep (l₁ ++ sep :: l₂) = l₁ :: splitOnChar sep l₂ := by
  induction l₁ with
  | nil =>
    simp only [List.nil_append, splitOnChar]
    rcases hs : splitOnChar sep l₂ with _ | ⟨hh, t⟩
    · exact absurd hs (splitOnChar_ne_nil sep l₂)
    · simp
  | cons c cs ih =>
    have hc : ¬c = sep := fun hc => h (by simp [hc])
    have hcs : sep ∉ cs := fun hm => h (List.mem_cons_of_mem _ hm)
    simp only [List.cons_append, splitOnChar, List.append_eq]
    rw [ih hcs]
    simp [hc]

theorem splitOnChar_joinSep (sep : Char) (ls : List Str) (hne : ls ≠ [])
    (h : ∀ l ∈ ls, sep ∉ l) : splitOnChar sep (joinSep sep ls) = ls := by
  induction ls with
  | nil => exact absurd rfl hne
  | cons x xs ih =>
    rcases xs with _ | ⟨y, ys⟩
    · exact splitOnChar_of_not_mem sep x (h x (by simp))
    · have hx : sep ∉ x := h x (by simp)
      have : joinSep sep (x :: y :: ys) = x ++ sep :: joinSep sep (y :: ys) := rfl
      rw [this, splitOnChar_append sep x _ hx,
          ih (by simp) (fun l hl => h l (List.mem_cons_of_mem _ hl))]

theorem mem_joinSep (sep : Char) (ls : List Str) (c : Char)
    (h : c ∈ joinSep sep ls) : c = sep ∨ ∃ l ∈ ls, c ∈ l := by
  induction ls with
  | nil => simp [joinSep] at h
  | cons x xs ih =>
    rcases xs with _ | ⟨y, ys⟩
    · exact Or.inr ⟨x, by simp, h⟩
    · have hj : joinSep sep (x :: y :: ys) = x ++ sep :: joinSep sep (y :: ys) := rfl
      rw [hj] at h
      rcases List.mem_append.mp h with hx | hrest
      · exact Or.inr ⟨x, by simp, hx⟩
      · rcases List.mem_cons.mp hrest with hc | hr
        · exact Or.inl hc
        · rcases ih hr with hc | ⟨l, hl, hcl⟩
          · exact Or.inl hc
          · exact Or.inr ⟨l, List.mem_cons_of_mem _ hl, hcl⟩

theorem serializeRecord_ne_nil (r : DockerPS) : serializeRecord r ≠ [] := by
  simp only [serializeRecord, DockerPS.toRow]
  have : joinSep '\t' [r.ContainerID, r.Image, r.Command, r.Created,
      r.Status, r.Ports, r.Names] =
      r.ContainerID ++ '\t' :: joinSep '\t' [r.Image, r.Command, r.Created,
      r.Status, r.Ports, r.Names] := rfl
  rw [this]
  intro hnil
  rcases List.append_eq_nil.mp hnil with ⟨_, h2⟩
  exact List.cons_ne_nil _ _ h2

/-! ## Helper lemmas: round-trip -/

theorem parseLine_serializeRecord (r : DockerPS)
    (h : ∀ f ∈ r.toRow, goodField f) :
    parseLine (serializeRecord r) = some r := by
  have htb : ∀ f ∈ r.toRow, '\t' ∉ f := fun f hf => (h f hf).1
  have hsplit : splitOnChar '\t' (serializeRecord r) = r.toRow :=
    splitOnChar_joinSep '\t' r.toRow (by simp [DockerPS.toRow]) htb
  unfold parseLine
  rw [hsplit]
  show some ⟨trimGo r.ContainerID, trimGo r.Image, trimGo r.Command,
        trimGo r.Created, trimGo r.Status, trimGo r.Ports,
        trimGo r.Names⟩ = some r
  rw [(h r.ContainerID (by simp [DockerPS.toRow])).2.2,
      (h r.Image (by simp [DockerPS.toRow])).2.2,
      (h r.Command (by simp [DockerPS.toRow])).2.2,
      (h r.Created (by simp [DockerPS.toRow])).2.2,
      (h r.Status (by simp [DockerPS.toRow])).2.2,
      (h r.Ports (by simp [DockerPS.toRow])).2.2,
      (h r.Names (by simp [DockerPS.toRow])).2.2]

theorem parse_serialize (rs : List DockerPS)
    (h : ∀ r ∈ rs, ∀ f ∈ r.toRow, goodField f) :
    parseDockerPSOutput (serializeRecords rs) = some rs := by
  induction rs with
  | nil => rfl
  | cons r rest ih =>
    have hr : ∀ f ∈ r.toRow, goodField f := h r (by simp)
    have hrest : ∀ x ∈ rest, ∀ f ∈ x.toRow, goodField f :=
      fun x hx => h x (List.mem_cons_of_mem _ hx)
    have hnl : '\n' ∉ serializeRecord r := by
      intro hmem
      rcases mem_joinSep '\t' r.toRow '\n' hmem with hc | ⟨l, hl, hcl⟩
      · exact absurd hc (by decide)
      · exact (hr l hl).2.1 hcl
    show parseLines (splitOnChar '\n'
      (serializeRecord r ++ '\n' :: serializeRecords rest)) = _
    rw [splitOnChar_append '\n' _ _ hnl]
    have hihp : parseLines (splitOnChar '\n' (serializeRecords rest)) = some rest := by
      have := ih hrest
      unfold parseDockerPSOutput at this
      exact this
    simp only [parseLines]
    rw [if_neg (serializeRecord_ne_nil r), parseLine_serializeRecord r hr, hihp]

/-! ## Helper lemmas: leftmost port match -/

theorem findPort_some_first (s : Str) (p : Str) (h : findPort s = some p) :
    ∃ i, matchPortAt (s.drop i) = some p ∧
      ∀ j < i, matchPortAt (s.drop j) = none := by
  induction s with
  | nil => simp [findPort] at h
  | cons c cs ih =>
    rcases hm : matchPortAt (c :: cs) with _ | d
    · have h2 : findPort cs = some p := by
        simpa [findPort, hm] using h
      rcases ih h2 with ⟨i, h1, h0⟩
      refine ⟨i + 1, by simpa using h1, ?_⟩
      intro j hj
      cases j with
      | zero => simpa using hm
      | succ k => simpa using h0 k (Nat.lt_of_succ_lt_succ hj)
    · have hdp : d = p := by
        have h2 := h
        simp only [findPort, hm] at h2
        exact Option.some.inj h2
      exact ⟨0, by simpa [hdp] using hm,
        fun j hj => absurd hj (Nat.not_lt_zero j)⟩

theorem findPort_of_first (s : Str) (i : Nat) (p : Str)
    (h1 : matchPortAt (s.drop i) = some p)
    (h0 : ∀ j < i, matchPortAt (s.drop j) = none) :
    findPort s = some p := by
  induction s generalizing i with
  | nil =>
    rw [List.drop_nil] at h1
    exact absurd h1 (by simp [matchPortAt])
  | cons c cs ih =>
    cases i with
    | zero =>
      rw [List.drop_zero] at h1
      simp [findPort, h1]
    | succ k =>
      have hc : matchPortAt (c :: cs) = none := by
        simpa using h0 0 (Nat.succ_pos k)
      have h1b : matchPortAt (cs.drop k) = some p := by simpa using h1
      have h0b : ∀ j < k, matchPortAt (cs.drop j) = none :=
        fun j hj => by simpa using h0 (j + 1) (Nat.succ_lt_succ hj)
      simp [findPort, hc, ih k h1b h0b]

theorem findPort_none_all (s : Str) (h : findPort s = none) :
    ∀ i, matchPortAt (s.drop i) = none := by
  induction s with
  | nil =>
    intro i
    rw [List.drop_nil]
    rfl
  | cons c cs ih =>
    intro i
    rcases hm : matchPortAt (c :: cs) with _ | d
    · have h2 : findPort cs = none := by simpa [findPort, hm] using h
      cases i with
      | zero => simpa using hm
      | succ k => simpa using ih h2 k
    · simp [findPort, hm] at h

theorem findPort_none_of_all (s : Str)
    (h : ∀ i, matchPortAt (s.drop i) = none) : findPort s = none := by
  rcases hf : findPort s with _ | p
  · rfl
  · rcases findPort_some_first s p hf with ⟨i, h1, _⟩
    rw [h i] at h1
    exact absurd h1 (by simp)

/-! ## Helper lemmas: the update step -/

theorem handleKey_model (m : Model) (k : Key) (r : UpdateResult)
    (h : handleKey m k = some r) :
    r.model.loading = m.loading ∧ r.model.rows = m.rows := by
  cases k <;> simp only [handleKey, keyFallthrough] at h <;>
    (repeat' split at h) <;>
    first
      | (injection h with h2; rw [← h2]; exact ⟨rfl, rfl⟩)
      | exact Option.noConfusion h

theorem update_loading (m : Model) (msg : Msg) (r : UpdateResult)
    (h : update m msg = some r) :
    r.model.loading = m.loading ∨ r.model.loading = false := by
  cases msg with
  | key k => exact Or.inl (handleKey_model m k r h).1
  | data output =>
    right
    simp only [update, handleData] at h
    split at h
    · exact absurd h (by simp)
    · injection h with h2; rw [← h2]
  | err e =>
    right
    simp only [update, handleErr] at h
    injection h with h2; rw [← h2]
  | refresh fetch =>
    left
    cases fetch with
    | error e =>
      simp only [update, handleRefresh] at h
      injection h with h2; rw [← h2]
    | ok output =>
      simp only [update, handleRefresh] at h
      split at h
      · exact absurd h (by simp)
      · injection h with h2; rw [← h2]

/-! ## Claim theorems -/

/-- Claim C1 (code bug): the spec requires the row parser never to crash,
skipping malformed (non-seven-field) lines and surfacing a skip count.
The code panics instead: on the line `a<TAB>b` it indexes `fields[2]` out
of range (modelled by `none`), and its return type carries no skip count.
Blank lines are indeed skipped (second conjunct). -/
theorem c1_parse_crashes_on_malformed_line :
    parseDockerPSOutput ("a\tb\n".data) = none ∧
    parseDockerPSOutput ("\n\n".data) = some [] :=
  ⟨rfl, rfl⟩

/-- Claim C2, counterexample: pressing `s` twice on the same selected
target dispatches two external invocations (one per press) — the second
keystroke is not dropped, refuting "exactly one external invocation". -/
theorem c2_second_press_not_dropped :
    ((update sampleModelRunning (Msg.key Key.s)).bind fun r1 =>
      (update r1.model (Msg.key Key.s)).map fun r2 =>
        (r1.cmd.invocations + r2.cmd.invocations,
         decide (r2.cmd = Cmd.none))) = some (2, false) :=
  rfl

/-- Claim C2, amended: the code keeps no pending-action state; every press
of a mutating key (stop/restart/delete) with a row selected leaves the
model unchanged and dispatches one external invocation, so the same press
repeated before completion dispatches again (two presses, two
invocations). -/
theorem c2_every_press_dispatches (m : Model) (c0 : Str) (rest : List Str)
    (hrow : selRow m = c0 :: rest) :
    update m (Msg.key Key.s) = some ⟨m, Cmd.stop (trimGo c0), []⟩ ∧
    update m (Msg.key Key.r) = some ⟨m, Cmd.restart (trimGo c0), []⟩ ∧
    update m (Msg.key Key.d) = some ⟨m, Cmd.delete (trimGo c0), []⟩ ∧
    ((update m (Msg.key Key.s)).bind fun r1 =>
      (update r1.model (Msg.key Key.s)).map fun r2 =>
        r1.cmd.invocations + r2.cmd.invocations) = some 2 := by
  have hs : update m (Msg.key Key.s) = some ⟨m, Cmd.stop (trimGo c0), []⟩ := by
    simp only [update, handleKey, hrow]
  refine ⟨hs, ?_, ?_, ?_⟩
  · simp only [update, handleKey, hrow]
  · simp only [update, handleKey, hrow]
  · simp [hs, Cmd.invocations]

/-- Claim C2, amended, witness at a concrete model. -/
theorem c2_every_press_dispatches_witness :
    update sampleModelRunning (Msg.key Key.s) =
      some ⟨sampleModelRunning, Cmd.stop (trimGo ("abc123".data)), []⟩ :=
  (c2_every_press_dispatches sampleModelRunning ("abc123".data)
    ["nginx".data, "nginx -g daemon".data, "2024-01-01".data,
     "Up 2 hours".data, "0.0.0.0:8080->80/tcp".data, "web".data] rfl).1

/-- Claim C3 (code bug): on `e` over a running container the code returns
a command that calls `syscall.Exec`, which replaces the dashboard process
image (control never returns on success) and whose completion yields no
refresh message; the spec instead requires control to return to `Ready`
with an implicit refresh and the dashboard process to survive. -/
theorem c3_attach_replaces_process :
    (update sampleModelRunning (Msg.key Key.e)).map (fun r => (r.model, r.cmd)) =
      some (sampleModelRunning, Cmd.execHandoff ("abc123".data)) ∧
    Cmd.replacesProcess (Cmd.execHandoff ("abc123".data)) = true ∧
    Cmd.yieldsRefresh (Cmd.execHandoff ("abc123".data)) = false :=
  ⟨rfl, rfl, rfl⟩

/-- Claim C4, counterexample: an error completion delivered to a model
with a non-empty record set leaves the record set unchanged (and
non-empty), refuting "becomes Ready with an empty record set". -/
theorem c4_error_keeps_rows :
    (update sampleModelTwo (Msg.err ("boom".data))).map
      (fun r => (r.model.rows.length, r.model.loading)) = some (2, false) :=
  rfl

/-- Claim C4, amended: when a refresh completes with an error the
dashboard is (or stays) out of `Loading` — the initial-load error clears
the loading flag, a later refresh error leaves the model untouched — the
record set is left unchanged, and the error is printed for display; no
handler ever sets the loading flag, so `Loading` is never re-entered
automatically, and no error completion returns the quit command. -/
theorem c4_refresh_error_ready :
    (∀ (m : Model) (e : Str), update m (Msg.err e) =
      some ⟨{ m with loading := false }, Cmd.none, [Effect.print (loadErrText e)]⟩) ∧
    (∀ (m : Model) (e : Str), update m (Msg.refresh (Except.error e)) =
      some ⟨m, Cmd.none, [Effect.print (refreshErrText e)]⟩) ∧
    (∀ (m : Model) (msg : Msg) (r : UpdateResult), update m msg = some r →
      r.model.loading = true → m.loading = true) ∧
    (∀ (m : Model) (e : Str) (r : UpdateResult),
      update m (Msg.err e) = some r → r.cmd ≠ Cmd.quit) ∧
    (∀ (m : Model) (e : Str) (r : UpdateResult),
      update m (Msg.refresh (Except.error e)) = some r → r.cmd ≠ Cmd.quit) := by
  refine ⟨fun m e => rfl, fun m e => rfl, ?_, ?_, ?_⟩
  · intro m msg r h ht
    rcases update_loading m msg r h with heq | hfalse
    · rw [← heq]; exact ht
    · rw [hfalse] at ht; exact absurd ht (by simp)
  · intro m e r h
    injection h with h2
    rw [← h2]
    simp
  · intro m e r h
    injection h with h2
    rw [← h2]
    simp

/-- Claim C4, amended, witness: the initial-load error at a concrete
non-empty model. -/
theorem c4_refresh_error_ready_witness :
    update sampleModelTwo (Msg.err ("boom".data)) =
      some ⟨{ sampleModelTwo with loading := false }, Cmd.none,
            [Effect.print (loadErrText ("boom".data))]⟩ :=
  c4_refresh_error_ready.1 sampleModelTwo ("boom".data)

/-- Claim C5: after any refresh completion (new data, initial-load error,
or a refresh round, including ones that shrink or empty the record set)
the selected row index lies in `[0, max 0 (len-1)]`.  The clamp performed
by the table widget's row replacement is modelled from the spec
(`clampCursor`); error paths leave the model unchanged and so need the
index to have been in range before. -/
theorem c5_selection_clamped (m : Model) (msg : Msg)
    (hm : m.cursor ≤ max 0 (m.rows.length - 1))
    (hmsg : msg.isRefreshCompletion) (r : UpdateResult)
    (h : update m msg = some r) :
    r.model.cursor ≤ max 0 (r.model.rows.length - 1) := by
  cases msg with
  | key k => exact absurd hmsg (by simp [Msg.isRefreshCompletion])
  | data output =>
    simp only [update, handleData] at h
    split at h
    · exact absurd h (by simp)
    · injection h with h2
      rw [← h2]
      simp only [clampCursor]
      exact le_max_of_le_right (Nat.min_le_right _ _)
  | err e =>
    simp only [update, handleErr] at h
    injection h with h2
    rw [← h2]
    exact hm
  | refresh fetch =>
    cases fetch with
    | error e =>
      simp only [update, handleRefresh] at h
      injection h with h2
      rw [← h2]
      exact hm
    | ok output =>
      simp only [update, handleRefresh] at h
      split at h
      · exact absurd h (by simp)
      · injection h with h2
        rw [← h2]
        simp only [clampCursor]
        exact le_max_of_le_right (Nat.min_le_right _ _)

/-- Claim C5, witness: a refresh that shrinks the record set from two
rows (cursor on index 1) to one row clamps the cursor to 0. -/
theorem c5_selection_clamped_witness :
    c5res.model.cursor ≤ max 0 (c5res.model.rows.length - 1) :=
  c5_selection_clamped sampleModelTwo (Msg.data scenarioText) (by decide)
    trivial c5res rfl

/-- Claim C6: for records whose fields obey the documented delimiter
convention (no embedded tab or newline, no surrounding whitespace),
parsing the tab-separated newline-terminated serialization returns
exactly the original record list. -/
theorem c6_parse_serialize_roundtrip (rs : List DockerPS)
    (h : ∀ r ∈ rs, ∀ f ∈ r.toRow, goodField f) :
    parseDockerPSOutput (serializeRecords rs) = some rs :=
  parse_serialize rs h

/-- Claim C6, witness: round trip of two concrete records. -/
theorem c6_parse_serialize_roundtrip_witness :
    parseDockerPSOutput (serializeRecords [sampleRec, exitedRec]) =
      some [sampleRec, exitedRec] :=
  c6_parse_serialize_roundtrip [sampleRec, exitedRec] (by decide)

/-- Claim C7: projection produces exactly one display row per record, in
order, and the muted (gray) style is applied to a row iff the record's
status contains a terminal-state keyword ("Exited" or "Stopped"): the
styled view of the projected rows is precisely the record list mapped to
(row, muted-flag) pairs. -/
theorem c7_projection (records : List DockerPS) :
    viewStyledRows (dockerPSToTableRows records) =
      some (records.map fun r =>
        (r.toRow, goContains r.Status exitedKW || goContains r.Status stoppedKW)) := by
  induction records with
  | nil => rfl
  | cons r rest ih =>
    simp only [dockerPSToTableRows, List.map] at ih ⊢
    simp only [viewStyledRows]
    have hst : styleRow r.toRow =
        some (r.toRow, goContains r.Status exitedKW || goContains r.Status stoppedKW) := rfl
    rw [hst, ih]

/-- Claim C8: an attach attempted on a selected record whose status
contains a terminal-state keyword is rejected before any process is
spawned — the handler returns the model unchanged, a nil command (no
external invocation), and only the descriptive validation message. -/
theorem c8_attach_rejected (m : Model) (c0 : Str) (rest : List Str)
    (hrow : selRow m = c0 :: rest) (st : Str)
    (hst : (c0 :: rest).get? 4 = some st)
    (hterm : (goContains st exitedKW || goContains st stoppedKW) = true) :
    update m (Msg.key Key.e) =
      some ⟨m, Cmd.none, [Effect.print cannotExecText]⟩ := by
  simp only [update, handleKey, hrow, hst, hterm, if_true]

/-- Claim C8, witness: attach on the record with status
`Exited (1) 5 minutes ago`. -/
theorem c8_attach_rejected_witness :
    update sampleModelExited (Msg.key Key.e) =
      some ⟨sampleModelExited, Cmd.none, [Effect.print cannotExecText]⟩ :=
  c8_attach_rejected sampleModelExited ("def456".data) exitedRowTail rfl
    ("Exited (1) 5 minutes ago".data) rfl (by decide)

/-- Claim C9: `extractPort` returns the host-port capture of the leftmost
substring matching `(\d+)->\d+/tcp` (first conjunct: an ok result is
exactly a match at some position with no match at any earlier position),
returns the descriptive error exactly when no position matches (second
conjunct; being a pure function it spawns nothing), and on the mapping
`0.0.0.0:8080->80/tcp` extracts host port `8080` (third conjunct). -/
theorem c9_extract_port :
    (∀ (s p : Str), extractPort s = Except.ok p ↔
      ∃ i, matchPortAt (s.drop i) = some p ∧
        ∀ j < i, matchPortAt (s.drop j) = none) ∧
    (∀ s : Str, extractPort s = Except.error (noPortText s) ↔
      ∀ i, matchPortAt (s.drop i) = none) ∧
    extractPort ("0.0.0.0:8080->80/tcp".data) = Except.ok ("8080".data) := by
  refine ⟨fun s p => ⟨?_, ?_⟩, fun s => ⟨?_, ?_⟩, rfl⟩
  · intro h
    rcases hf : findPort s with _ | d
    · rw [extractPort, hf] at h
      exact absurd h (by simp)
    · rw [extractPort, hf] at h
      have hdp : d = p := Except.ok.inj h
      exact findPort_some_first s p (hdp ▸ hf)
  · rintro ⟨i, h1, h0⟩
    rw [extractPort, findPort_of_first s i p h1 h0]
  · intro h
    rcases hf : findPort s with _ | d
    · exact findPort_none_all s hf
    · rw [extractPort, hf] at h
      exact absurd h (by simp)
  · intro h
    rw [extractPort, findPort_none_of_all s h]

/-- Claim C9, witness: the concrete scenario mapping. -/
theorem c9_extract_port_witness :
    extractPort ("0.0.0.0:8080->80/tcp".data) = Except.ok ("8080".data) :=
  c9_extract_port.2.2

/-- Claim C10: pressing the open-endpoint key `o` leaves every model field
unchanged (record set, selection, focus flag, loading flag) whether port
extraction succeeds or fails, and the returned command is nil, so no
refresh is ever triggered.  The hypothesis covers both reachable shapes
of the selection: none, or a full seven-cell record row. -/
theorem c10_open_key_pure (m : Model)
    (h : selRow m = [] ∨ (selRow m).length = 7) :
    (update m (Msg.key Key.o)).map (fun r => (r.model, r.cmd)) =
      some (m, Cmd.none) := by
  rcases h with h | h
  · simp [update, handleKey, h, keyFallthrough, tableKeyCursor]
  · rcases hsel : selRow m with _ | ⟨c0, rest⟩
    · rw [hsel] at h
      simp at h
    · rw [hsel] at h
      have h6 : rest.length = 6 := by
        simp at h
        omega
      obtain ⟨pm, hpm⟩ : ∃ pm, rest[4]? = some pm := by
        rcases he : rest[4]? with _ | pm
        · rw [List.getElem?_eq_none_iff] at he
          omega
        · exact ⟨pm, rfl⟩
      cases hep : extractPort pm with
      | error e => simp [update, handleKey, hsel, hpm, hep]
      | ok port => simp [update, handleKey, hsel, hpm, hep]

/-- Claim C10, witness: the open key at a concrete model with a selected
seven-cell row. -/
theorem c10_open_key_pure_witness :
    (update sampleModelRunning (Msg.key Key.o)).map (fun r => (r.model, r.cmd)) =
      some (sampleModelRunning, Cmd.none) :=
  c10_open_key_pure sampleModelRunning (Or.inr (by decide))
